import Mathlib

/-!
# Verification of the MaroviTranslation section-extraction core

This file gives a shallow embedding, in Lean 4, of the core algorithms of the
MaroviTranslation repository:

* `MaroviTranslation/parsing/core.py` — the block classifier
  (`is_likely_table_or_figure`), the section-transition validator
  (`is_valid_section_transition`) and the large-gap check (`is_large_gap`);
* `MaroviTranslation/parsing/NeurIPSParser.py` — heading scanning
  (`extract_sections`) and the sequence validator (`post_process_sections`);
* `MaroviTranslation/formatters/markdown.py` — the
  `ContentElement`/`Section`/`Document` tree with its JSON and Markdown
  (de)serialization;
* `MaroviTranslation/markdown/core.py` — the `Markdown` accumulator
  (`add_image`).

Python strings are modelled as Lean `String`s, working on their underlying
`List Char`; Python `None`-able strings as `Option String`; Python dicts as
association lists; functions that can raise as `Except`-valued functions.
Mutation of the `Section` tree during Markdown parsing is translated into
explicit state passing (see `MdState`).  All definitions are executable and
structurally recursive (fuel is used where the Python loop is not structural),
so concrete runs reduce inside the kernel.
-/

namespace Marovi

/-! ## Python character/string primitives -/

/-- Python whitespace, as used by `str.strip`, `str.split()` and the regex
class `\s` (restricted to ASCII, which is all the repository's inputs use). -/
def pyWS (c : Char) : Bool :=
  c = ' ' || c = '\t' || c = '\n' || c = '\r' || c = '\x0b' || c = '\x0c'

/-- Python `str.strip()` on the underlying character list: drop leading and
trailing whitespace. -/
def stripChars (cs : List Char) : List Char :=
  ((cs.dropWhile pyWS).reverse.dropWhile pyWS).reverse

/-- Python `str.strip()`. -/
def pyStrip (s : String) : String := ⟨stripChars s.data⟩

/-- The characters at which Python `str.splitlines()` breaks a line:
`\n`, `\r`, `\v`, `\f`, the separators FS/GS/RS, NEL, and the Unicode line
and paragraph separators (`\r\n` is handled as a single boundary by
`linesAux`). -/
def pyLineBreak (c : Char) : Bool :=
  c = '\n' || c = '\r' || c = '\x0b' || c = '\x0c' || c = '\x1c' ||
    c = '\x1d' || c = '\x1e' || c = '\x85' || c = '\u2028' || c = '\u2029'

/-- Worker for Python `str.splitlines()`: `acc` holds the reversed
characters of the current line; `\r\n` counts as one boundary, and a
trailing boundary does not open a final empty line. -/
def linesAux (acc : List Char) : List Char → List (List Char)
  | [] => if acc.isEmpty then [] else [acc.reverse]
  | [c] =>
    if pyLineBreak c then [acc.reverse]
    else [(c :: acc).reverse]
  | c :: c2 :: cs =>
    if c = '\r' then
      if c2 = '\n' then acc.reverse :: linesAux [] cs
      else acc.reverse :: linesAux [] (c2 :: cs)
    else if pyLineBreak c then acc.reverse :: linesAux [] (c2 :: cs)
    else linesAux (c :: acc) (c2 :: cs)

/-- Python `str.splitlines()`. -/
def splitLines (s : String) : List (List Char) := linesAux [] s.data

/-- Split at the first occurrence of character `c`: returns the part before
and the part after (the separator removed), or `none` if `c` is absent.
This distinguishes "no separator" from "separator at the end", matching the
arity of Python's `str.split(sep, maxsplit)`. -/
def splitFirstChar (c : Char) : List Char → Option (List Char × List Char)
  | [] => none
  | d :: cs =>
    if d = c then some ([], cs)
    else (splitFirstChar c cs).map (fun p => (d :: p.1, p.2))

/-- `leadEq pat cs` is true when `pat` is a prefix of `cs`. -/
def leadEq : List Char → List Char → Bool
  | [], _ => true
  | _ :: _, [] => false
  | p :: ps, c :: cs => p = c && leadEq ps cs

/-- Split at the first occurrence of the substring `pat`: part before, part
after (the occurrence removed); `none` if `pat` does not occur. -/
def splitFirstSub (pat : List Char) : List Char → Option (List Char × List Char)
  | [] => none
  | c :: cs =>
    if leadEq pat (c :: cs) then some ([], (c :: cs).drop pat.length)
    else (splitFirstSub pat cs).map (fun p => (c :: p.1, p.2))

/-- Python `s.split(sep)[0]` for a string separator: everything before the
first occurrence of `pat`, or the whole list when `pat` does not occur. -/
def beforeFirstSub (pat : List Char) (cs : List Char) : List Char :=
  match splitFirstSub pat cs with
  | some (a, _) => a
  | none => cs

/-- Number of maximal runs of non-whitespace characters, i.e.
`len(line.split())` in Python. -/
def wordCount (cs : List Char) : Nat :=
  (cs.foldl (fun (st : Bool × Nat) c =>
    if pyWS c then (false, st.2)
    else if st.1 then (true, st.2) else (true, st.2 + 1)) (false, 0)).2

/-! ## Numerals and their ordering

`post_process_sections` sorts candidates with key
`[int(part) for part in num.split('.')]`; Python compares such keys
lexicographically.  Section numerals are dotted sequences of decimal digits,
so every component parses; `toNat?.getD 0` is total on those inputs. -/

/-- Python `str.split(sep)` for a one-character separator: keeps empty
parts, result always nonempty. -/
def splitCharAll (sep : Char) : List Char → List (List Char)
  | [] => [[]]
  | c :: cs =>
    if c = sep then [] :: splitCharAll sep cs
    else
      match splitCharAll sep cs with
      | [] => [[c]]
      | p :: ps => (c :: p) :: ps

/-- Python `int` on a string of decimal digits (the only inputs the
repository feeds it: regex-matched numeral components). -/
def digitsToNat (cs : List Char) : Nat :=
  cs.foldl (fun acc c => acc * 10 + (c.toNat - 48)) 0

/-- `[int(part) for part in s.split('.')]`. -/
def parseNumeral (s : String) : List Nat :=
  (splitCharAll '.' s.data).map digitsToNat

/-- Python `<` on lists of integers (lexicographic, a strict prefix is
smaller). -/
def lexLt : List Nat → List Nat → Bool
  | [], [] => false
  | [], _ :: _ => true
  | _ :: _, [] => false
  | a :: as, b :: bs => a < b || (a = b && lexLt as bs)

/-! ## `PDFParser.is_valid_section_transition` (parsing/core.py:130-163)

The Python loop `for i in range(len(last_parts))` indexes
`current_parts[i]`, which raises `IndexError` when `current_parts` is
exhausted first; the embedding returns `none` in exactly that case. -/

/-- The component walk of `is_valid_section_transition`:
`none` models the `IndexError` raised when `current_parts` runs out while
`last_parts` still has components and all compared components were equal.
After a completed walk the function returns `len(current) > len(last)`,
i.e. whether unvisited current components remain. -/
def transitionWalk : List Nat → List Nat → Option Bool
  | _ :: _, [] => none
  | [], rest => some (!rest.isEmpty)
  | l :: ls, c :: cs =>
    if c < l then some false
    else if c > l then some (cs.all (· = 0))
    else transitionWalk ls cs

/-- `PDFParser.is_valid_section_transition` on already-parsed integer
tuples. -/
def isValidTransitionParts (lastParts currentParts : List Nat) : Option Bool :=
  if currentParts.length > lastParts.length + 1 then some false
  else transitionWalk lastParts currentParts

/-- `PDFParser.is_valid_section_transition` on dotted-numeral strings. -/
def isValidSectionTransition (lastSectionNum currentSectionNum : String) : Option Bool :=
  isValidTransitionParts (parseNumeral lastSectionNum) (parseNumeral currentSectionNum)

/-- `PDFParser.is_large_gap` (parsing/core.py:165-187): compares only the
first (top-level) components; the gap threshold is 1.  Subtraction of Python
ints is modelled on `Int`. -/
def isLargeGap (lastSectionNum currentSectionNum : String) : Bool :=
  let lastMain : Int := digitsToNat ((splitCharAll '.' lastSectionNum.data).headD [])
  let currentMain : Int := digitsToNat ((splitCharAll '.' currentSectionNum.data).headD [])
  currentMain - lastMain > 1

/-! ### The transition rule as the specification states it (for C1)

Claim C1 describes the result by the first index `i < len(last_parts)` at
which the tuples differ (out-of-range access counted as a difference),
rather than by the loop.  `claimTransitionRule` is written from that
description and compared with the source embedding. -/

/-- The transition rule, following the claim's wording: reject on a jump of
more than one nesting level; otherwise inspect the first shared index where
the tuples disagree (or where `current_parts` has no component). -/
def claimTransitionRule (lastParts currentParts : List Nat) : Option Bool :=
  if currentParts.length > lastParts.length + 1 then some false
  else
    match (List.range lastParts.length).find?
        (fun i => currentParts.length ≤ i || currentParts.getD i 0 ≠ lastParts.getD i 0) with
    | none => some (decide (currentParts.length > lastParts.length))
    | some i =>
      if currentParts.length ≤ i then none
      else if currentParts.getD i 0 < lastParts.getD i 0 then some false
      else some ((currentParts.drop (i + 1)).all (· = 0))

theorem transitionWalk_eq_claim (lp cp : List Nat) :
    transitionWalk lp cp =
      (match (List.range lp.length).find?
          (fun i => cp.length ≤ i || cp.getD i 0 ≠ lp.getD i 0) with
      | none => some (decide (cp.length > lp.length))
      | some i =>
        if cp.length ≤ i then none
        else if cp.getD i 0 < lp.getD i 0 then some false
        else some ((cp.drop (i + 1)).all (· = 0))) := by
  induction lp generalizing cp with
  | nil =>
    simp [transitionWalk, List.range_zero]
    cases cp <;> simp [transitionWalk, List.isEmpty]
  | cons l ls ih =>
    cases cp with
    | nil =>
      simp [transitionWalk, List.range_succ_eq_map, List.find?]
    | cons c cs =>
      have hrange : List.range (l :: ls).length = 0 :: (List.range ls.length).map (· + 1) := by
        simp [List.range_succ_eq_map]
      rw [hrange]
      by_cases hlt : c < l
      · have hne : c ≠ l := Nat.ne_of_lt hlt
        simp [transitionWalk, List.find?, hne, hlt]
      · by_cases hgt : c > l
        · have hne : c ≠ l := Nat.ne_of_gt hgt
          simp [transitionWalk, List.find?, hne, Nat.not_lt_of_gt hgt, Nat.lt_irrefl, hgt]
        · have heq : c = l := Nat.le_antisymm (Nat.not_lt.mp hgt) (Nat.not_lt.mp hlt)
          subst heq
          have hwalk : transitionWalk (c :: ls) (c :: cs) = transitionWalk ls cs := by
            simp [transitionWalk]
          rw [hwalk, ih cs]
          have hfind :
              List.find? (fun i => (c :: cs).length ≤ i || (c :: cs).getD i 0 ≠ (c :: ls).getD i 0)
                (0 :: (List.range ls.length).map (· + 1)) =
              ((List.range ls.length).find? (fun i => cs.length ≤ i || cs.getD i 0 ≠ ls.getD i 0)).map
                (· + 1) := by
            rw [List.find?_cons_of_neg _ (by simp), List.find?_map]
            have hpred :
                ((fun i => decide ((c :: cs).length ≤ i) || decide ((c :: cs).getD i 0 ≠ (c :: ls).getD i 0))
                    ∘ (· + 1)) =
                (fun i => decide (cs.length ≤ i) || decide (cs.getD i 0 ≠ ls.getD i 0)) := by
              funext i
              simp [Nat.succ_le_succ_iff, List.getD_cons_succ]
            rw [hpred]
          rw [hfind]
          cases hres : (List.range ls.length).find? (fun i => cs.length ≤ i || cs.getD i 0 ≠ ls.getD i 0) with
          | none => simp [Nat.succ_lt_succ_iff]
          | some i => simp [Nat.succ_le_succ_iff, List.getD_cons_succ]

/-! ## Theorem for claim C1 -/

/-- C1.  `is_valid_section_transition`, on every pair of parsed integer
tuples, agrees exactly with the transition rule as the specification states
it (reject on a jump of more than one nesting level deeper; reject at the
first shared index where the current component is smaller; at the first
index where it is larger accept iff every later current component is zero;
on full equality of the shared components accept iff the current tuple is
strictly longer), and the five boundary cases listed in the claim hold:
`1.1 -> 1.2` valid, `1 -> 1.1` valid, `1.1 -> 2` valid, `1.1 -> 2.1`
invalid, `1 -> 1` invalid. -/
theorem transition_matches_spec_rule :
    (∀ lp cp : List Nat, isValidTransitionParts lp cp = claimTransitionRule lp cp) ∧
    isValidSectionTransition "1.1" "1.2" = some true ∧
    isValidSectionTransition "1" "1.1" = some true ∧
    isValidSectionTransition "1.1" "2" = some true ∧
    isValidSectionTransition "1.1" "2.1" = some false ∧
    isValidSectionTransition "1" "1" = some false := by
  refine ⟨fun lp cp => ?_, by decide, by decide, by decide, by decide, by decide⟩
  unfold isValidTransitionParts claimTransitionRule
  by_cases h : cp.length > lp.length + 1
  · simp [h]
  · simp only [h, if_false]
    exact transitionWalk_eq_claim lp cp

/-! ## `PDFParser.is_likely_table_or_figure` (parsing/core.py:46-95)

Heuristic 4's loop walks `text.split('\n')` keeping a counter of consecutive
lines with at most one word, returning `True` as soon as it exceeds 5. -/

/-- The heuristic-4 loop: `cnt` is `single_word_line_count`. -/
def singleWordRun : List (List Char) → Nat → Bool
  | [], _ => false
  | l :: ls, cnt =>
    let cnt' := if wordCount l ≤ 1 then cnt + 1 else 0
    if 5 < cnt' then true else singleWordRun ls cnt'

/-- `PDFParser.is_likely_table_or_figure`.  The two float comparisons
(`numeric_chars / total_chars > 0.3` and
`total_chars / (newline_count + 1) < 5`) are modelled exactly on the
rationals, i.e. as the equivalent integer cross-multiplications; the local
variables `numeric_chars`, `total_chars`, `newline_count` are inlined. -/
def isLikelyTableOrFigure (text : String) : Bool :=
  -- Heuristic 1: high density of numeric characters
  if 0 < text.data.length ∧
      3 * text.data.length < 10 * text.data.countP Char.isDigit then true
  -- Heuristic 2: excessive number of new lines
  else if 10 < text.data.count '\n' then true
  -- Heuristic 3: small average line length (excluding very short text)
  else if 10 < text.data.length ∧
      text.data.length < 5 * (text.data.count '\n' + 1) then true
  -- Heuristic 4: multiple consecutive single-word lines
  else singleWordRun (splitCharAll '\n' text.data) 0

/-! ### The classifier as the specification states it (for C8) -/

/-- Spec heuristic 1: for nonempty text the fraction of digit characters
strictly exceeds 0.3. -/
def claimDigitDense (text : String) : Bool :=
  text.data.length ≠ 0 &&
    decide ((0.3 : ℚ) < (text.data.countP Char.isDigit : ℚ) / (text.data.length : ℚ))

/-- Spec heuristic 2: newline count strictly exceeds 10. -/
def claimManyNewlines (text : String) : Bool := decide (10 < text.data.count '\n')

/-- Spec heuristic 3: for text longer than 10 characters the average line
length `total_chars / (newline_count + 1)` is strictly below 5. -/
def claimShortLines (text : String) : Bool :=
  decide (10 < text.data.length) &&
    decide ((text.data.length : ℚ) / ((text.data.count '\n' : ℚ) + 1) < 5)

/-- `prefixSingles k ls`: the first `k` lines exist and each has at most one
word. -/
def prefixSingles (k : Nat) (ls : List (List Char)) : Bool :=
  decide ((ls.take k).length = k) && (ls.take k).all (fun x => wordCount x ≤ 1)

/-- Spec heuristic 4: some window of more than 5 (i.e. 6) consecutive lines
each containing at most one whitespace-delimited word. -/
def claimSingleWordWindow : List (List Char) → Bool
  | [] => false
  | l :: ls => prefixSingles 6 (l :: ls) || claimSingleWordWindow ls

theorem prefixSingles_cons_single {l : List Char} (h : wordCount l ≤ 1)
    (k : Nat) (ls : List (List Char)) :
    prefixSingles (k + 1) (l :: ls) = prefixSingles k ls := by
  simp [prefixSingles, List.take_succ_cons, h]

theorem prefixSingles_cons_multi {l : List Char} (h : ¬ wordCount l ≤ 1)
    (k : Nat) (ls : List (List Char)) :
    prefixSingles (k + 1) (l :: ls) = false := by
  simp [prefixSingles, List.take_succ_cons, h]

theorem prefixSingles_mono {k m : Nat} (hkm : k ≤ m) {ls : List (List Char)}
    (h : prefixSingles m ls = true) : prefixSingles k ls = true := by
  simp only [prefixSingles, Bool.and_eq_true, decide_eq_true_eq, List.all_eq_true] at h ⊢
  obtain ⟨hlen, hall⟩ := h
  have hmle : m ≤ ls.length := by
    by_contra hc
    rw [List.length_take, Nat.min_eq_right (Nat.le_of_not_le hc)] at hlen
    omega
  have htk : ls.take k = (ls.take m).take k := by
    rw [List.take_take, Nat.min_eq_left hkm]
  constructor
  · rw [List.length_take, Nat.min_eq_left (le_trans hkm hmle)]
  · intro x hx
    refine hall x ?_
    rw [htk] at hx
    exact List.take_subset k (ls.take m) hx

theorem prefixSingles_six_imp_window {ls : List (List Char)}
    (h : prefixSingles 6 ls = true) : claimSingleWordWindow ls = true := by
  cases ls with
  | nil => simp [prefixSingles] at h
  | cons l ls => simp [claimSingleWordWindow, h]

theorem singleWordRun_eq_window (ls : List (List Char)) :
    ∀ cnt, cnt ≤ 5 →
      (singleWordRun ls cnt = true ↔
        (prefixSingles (6 - cnt) ls = true ∨ claimSingleWordWindow ls = true)) := by
  induction ls with
  | nil =>
    intro cnt hcnt
    have hk : 6 - cnt ≠ 0 := by omega
    simp [singleWordRun, claimSingleWordWindow, prefixSingles, List.take_nil, hk]
    omega
  | cons l ls ih =>
    intro cnt hcnt
    by_cases hsingle : wordCount l ≤ 1
    · by_cases htop : cnt = 5
      · subst htop
        have hrun : singleWordRun (l :: ls) 5 = true := by
          simp [singleWordRun, hsingle]
        have hpre : prefixSingles (6 - 5) (l :: ls) = true := by
          simp [prefixSingles, List.take_succ_cons, List.take_zero, hsingle]
        simp [hrun, hpre]
      · have hlt : cnt < 5 := Nat.lt_of_le_of_ne hcnt htop
        have hrun : singleWordRun (l :: ls) cnt = singleWordRun ls (cnt + 1) := by
          have h6 : ¬ (5 < cnt + 1) := by omega
          simp [singleWordRun, hsingle, h6]
        have hk : 6 - cnt = (5 - cnt) + 1 := by omega
        have hk' : 6 - (cnt + 1) = 5 - cnt := by omega
        rw [hrun, ih (cnt + 1) (by omega), hk, hk',
          prefixSingles_cons_single hsingle]
        constructor
        · rintro (h | h)
          · exact Or.inl h
          · exact Or.inr (by simp [claimSingleWordWindow, h])
        · rintro (h | h)
          · exact Or.inl h
          · simp only [claimSingleWordWindow, Bool.or_eq_true] at h
            rcases h with h | h
            · -- a full window at the head gives a (5 - cnt)-prefix of `ls`
              rw [show (6:Nat) = 5 + 1 from rfl, prefixSingles_cons_single hsingle] at h
              exact Or.inl (prefixSingles_mono (by omega) h)
            · exact Or.inr h
    · have hrun : singleWordRun (l :: ls) cnt = singleWordRun ls 0 := by
        simp [singleWordRun, hsingle]
      have hk : 6 - cnt = (5 - cnt) + 1 := by omega
      have ih0 := ih 0 (by omega)
      rw [Nat.sub_zero] at ih0
      rw [hrun, ih0, hk, prefixSingles_cons_multi hsingle]
      have hhead : prefixSingles 6 (l :: ls) = false := by
        rw [show (6:Nat) = 5 + 1 from rfl, prefixSingles_cons_multi hsingle]
      constructor
      · rintro (h | h)
        · exact Or.inr (by
            simp [claimSingleWordWindow, hhead, prefixSingles_six_imp_window h])
        · exact Or.inr (by simp [claimSingleWordWindow, hhead, h])
      · rintro (h | h)
        · simp at h
        · simp only [claimSingleWordWindow, Bool.or_eq_true, hhead] at h
          rcases h with h | h
          · simp at h
          · exact Or.inr h

theorem digitDense_iff (n t : ℕ) :
    (¬ t = 0 ∧ (0.3 : ℚ) < (n : ℚ) / (t : ℚ)) ↔ (0 < t ∧ 3 * t < 10 * n) := by
  constructor
  · rintro ⟨ht, h⟩
    have ht' : (0 : ℚ) < (t : ℚ) := by exact_mod_cast Nat.pos_of_ne_zero ht
    rw [lt_div_iff ht'] at h
    refine ⟨Nat.pos_of_ne_zero ht, ?_⟩
    have h10 : (3 : ℚ) * t < 10 * n := by nlinarith
    exact_mod_cast h10
  · rintro ⟨ht, h⟩
    have ht' : (0 : ℚ) < (t : ℚ) := by exact_mod_cast ht
    refine ⟨Nat.pos_iff_ne_zero.mp ht, ?_⟩
    rw [lt_div_iff ht']
    have h10 : (3 : ℚ) * t < 10 * n := by exact_mod_cast h
    nlinarith

theorem shortLines_iff (t nl : ℕ) :
    ((t : ℚ) / ((nl : ℚ) + 1) < 5) ↔ (t < 5 * (nl + 1)) := by
  have hpos : (0 : ℚ) < (nl : ℚ) + 1 := by positivity
  rw [div_lt_iff hpos]
  constructor
  · intro h
    have : (t : ℚ) < 5 * (nl + 1) := by linarith
    exact_mod_cast this
  · intro h
    have : (t : ℚ) < 5 * ((nl : ℚ) + 1) := by exact_mod_cast h
    linarith

/-- The heuristic-4 counter starting at 0 decides exactly the existence of a
6-line single-word window. -/
theorem singleWordRun_zero_eq_window (ls : List (List Char)) :
    singleWordRun ls 0 = claimSingleWordWindow ls := by
  rw [Bool.eq_iff_iff]
  have h := singleWordRun_eq_window ls 0 (by omega)
  rw [Nat.sub_zero] at h
  rw [h]
  constructor
  · rintro (h' | h')
    · exact prefixSingles_six_imp_window h'
    · exact h'
  · exact Or.inr

/-- A 100-character prose sentence (one newline, no digits), used for the
classifier's negative example. -/
def proseSentence : String :=
  "The quick brown fox jumps over the lazy dog while the sun\nsets slowly behind the quiet green hills.."

/-- The specification's density heuristic coincides with the code's exact
integer comparison. -/
theorem claimDigitDense_eq_code (t : String) :
    claimDigitDense t =
      decide (0 < t.data.length ∧
        3 * t.data.length < 10 * t.data.countP Char.isDigit) := by
  rw [Bool.eq_iff_iff]
  unfold claimDigitDense
  simp only [Bool.and_eq_true, decide_eq_true_eq, ne_eq]
  exact digitDense_iff (t.data.countP Char.isDigit) t.data.length

/-- The specification's average-line-length heuristic coincides with the
code's exact integer comparison. -/
theorem claimShortLines_eq_code (t : String) :
    claimShortLines t =
      decide (10 < t.data.length ∧
        t.data.length < 5 * (t.data.count '\n' + 1)) := by
  rw [Bool.eq_iff_iff]
  unfold claimShortLines
  simp only [Bool.and_eq_true, decide_eq_true_eq]
  exact and_congr_right fun _ => shortLines_iff t.data.length (t.data.count '\n')

/-- The code's if-chain is the disjunction of its four conditions. -/
theorem isLikelyTableOrFigure_or_form (t : String) :
    isLikelyTableOrFigure t =
      (decide (0 < t.data.length ∧
          3 * t.data.length < 10 * t.data.countP Char.isDigit) ||
        decide (10 < t.data.count '\n') ||
        decide (10 < t.data.length ∧
          t.data.length < 5 * (t.data.count '\n' + 1)) ||
        singleWordRun (splitCharAll '\n' t.data) 0) := by
  unfold isLikelyTableOrFigure
  by_cases h1 : 0 < t.data.length ∧
      3 * t.data.length < 10 * t.data.countP Char.isDigit
  · rw [if_pos h1, decide_eq_true h1]
    simp
  · rw [if_neg h1, decide_eq_false h1, Bool.false_or]
    by_cases h2 : 10 < t.data.count '\n'
    · rw [if_pos h2, decide_eq_true h2]
      simp
    · rw [if_neg h2, decide_eq_false h2, Bool.false_or]
      by_cases h3 : 10 < t.data.length ∧
          t.data.length < 5 * (t.data.count '\n' + 1)
      · rw [if_pos h3, decide_eq_true h3]
        simp
      · rw [if_neg h3, decide_eq_false h3, Bool.false_or]

/-! ## Theorem for claim C8 -/

/-- C8.  `is_likely_table_or_figure` is a pure function of the block text
equal to the disjunction of the four specification heuristics (digit density
above 0.3; more than 10 newlines; average line length below 5 for blocks
over 10 characters; a run of more than 5 consecutive lines of at most one
word).  Moreover any block of 250 characters of which 200 are digits is
classified as noise, and the 100-character prose sentence with one newline
is not. -/
theorem likely_table_matches_spec :
    (∀ t : String,
      isLikelyTableOrFigure t =
        (claimDigitDense t || claimManyNewlines t || claimShortLines t ||
          claimSingleWordWindow (splitCharAll '\n' t.data))) ∧
    (∀ t : String, t.data.length = 250 → t.data.countP Char.isDigit = 200 →
      isLikelyTableOrFigure t = true) ∧
    isLikelyTableOrFigure proseSentence = false := by
  refine ⟨fun t => ?_, fun t hlen hcount => ?_, by decide⟩
  · rw [isLikelyTableOrFigure_or_form, claimDigitDense_eq_code, claimShortLines_eq_code,
      singleWordRun_zero_eq_window]
    rfl
  · rw [isLikelyTableOrFigure_or_form, hlen, hcount]
    rw [decide_eq_true (show 0 < 250 ∧ 3 * 250 < 10 * 200 by omega)]
    simp

/-- Witness for C8: a concrete 250-character block with 200 digit characters
is classified as noise. -/
theorem likely_table_matches_spec_witness :
    isLikelyTableOrFigure ⟨List.replicate 200 '7' ++ List.replicate 50 'x'⟩ = true := by
  apply likely_table_matches_spec.2.1
  · show (List.replicate 200 '7' ++ List.replicate 50 'x').length = 250
    rw [List.length_append, List.length_replicate, List.length_replicate]
  · show (List.replicate 200 '7' ++ List.replicate 50 'x').countP Char.isDigit = 200
    rw [List.countP_append, List.countP_eq_length_filter, List.countP_eq_length_filter,
      List.filter_replicate, List.filter_replicate,
      if_pos (show '7'.isDigit = true by decide),
      if_neg (show ¬ 'x'.isDigit = true by decide),
      List.length_replicate, List.length_nil]

/-! ## `NeurIPSParser.post_process_sections` (NeurIPSParser.py:69-92)

Candidates are `(section_number, section_title, match.start(), match.end())`
tuples.  They are sorted by `[int(part) for part in num.split('.')]`
(Python's stable sort, modelled as insertion sort, which is stable and
sorted for the same total preorder), then folded: the first candidate is
always accepted, and a later candidate is accepted exactly when the
large-gap check and the transition check both pass against the last
*accepted* candidate.  A raised `IndexError` from
`is_valid_section_transition` propagates. -/

/-- Python exceptions that the embedded functions can raise. -/
inductive PyErr where
  | indexError
  | typeError
  | attributeError
  | keyError
deriving DecidableEq

/-- A heading candidate `(section_number, section_title, start, end)`. -/
abbrev Candidate := String × String × Nat × Nat

/-- The sort key `[int(part) for part in x[0].split('.')]`. -/
def candKey (c : Candidate) : List Nat := parseNumeral c.1

/-- Insertion into a list sorted by `candKey` (a later-arriving candidate
goes after candidates with an equal key, matching the stability of Python's
`sorted`). -/
def insertByKey (x : Candidate) : List Candidate → List Candidate
  | [] => [x]
  | y :: ys =>
    if lexLt (candKey x) (candKey y) then x :: y :: ys else y :: insertByKey x ys

/-- `sorted(sections_with_spans, key=lambda x: [int(part) for part in
x[0].split('.')])`. -/
def sortByKey (l : List Candidate) : List Candidate :=
  l.foldl (fun acc x => insertByKey x acc) []

/-- The loop of `post_process_sections` once `valid_sections` is nonempty:
`last` is `valid_sections[-1]`.  Python's `or` short-circuits, so the
transition check only runs when the large-gap check is false. -/
def ppGo (last : Candidate) : List Candidate → Except PyErr (List Candidate)
  | [] => .ok []
  | c :: cs =>
    if isLargeGap last.1 c.1 then ppGo last cs
    else
      match isValidSectionTransition last.1 c.1 with
      | none => .error .indexError
      | some false => ppGo last cs
      | some true => (ppGo c cs).map (c :: ·)

/-- The fold of `post_process_sections` from an empty `valid_sections`: the
first candidate (if any) is always accepted. -/
def ppStart : List Candidate → Except PyErr (List Candidate)
  | [] => .ok []
  | c :: cs => (ppGo c cs).map (c :: ·)

/-- `NeurIPSParser.post_process_sections`. -/
def postProcessSections (l : List Candidate) : Except PyErr (List Candidate) :=
  ppStart (sortByKey l)

/-! ### Order facts about `lexLt` -/

theorem lexLt_asymm : ∀ a b : List Nat, lexLt a b = true → lexLt b a = false := by
  intro a
  induction a with
  | nil => intro b h; cases b <;> simp [lexLt] at h ⊢
  | cons x xs ih =>
    intro b h
    cases b with
    | nil => simp [lexLt] at h
    | cons y ys =>
      simp only [lexLt, Bool.or_eq_true, Bool.and_eq_true, decide_eq_true_eq] at h
      simp only [lexLt, Bool.or_eq_false_iff, Bool.and_eq_false_iff,
        decide_eq_false_iff_not, Nat.not_lt]
      rcases h with h | ⟨hxy, h⟩
      · exact ⟨Nat.le_of_lt h, Or.inl fun he => Nat.lt_irrefl x (he ▸ h)⟩
      · subst hxy
        exact ⟨Nat.le_refl x, Or.inr (ih ys h)⟩

theorem lexLt_notLt_trans :
    ∀ (a b c : List Nat), lexLt b a = false → lexLt c b = false → lexLt c a = false := by
  intro a
  induction a with
  | nil =>
    intro b c _ _
    cases c <;> cases b <;> simp_all [lexLt]
  | cons x xs ih =>
    intro b c h1 h2
    cases b with
    | nil => simp [lexLt] at h1
    | cons y ys =>
      cases c with
      | nil => simp [lexLt] at h2
      | cons z zs =>
        simp only [lexLt, Bool.or_eq_false_iff, Bool.and_eq_false_iff,
          decide_eq_false_iff_not, Nat.not_lt] at h1 h2 ⊢
        refine ⟨le_trans h1.1 h2.1, ?_⟩
        by_cases hzx : z = x
        · subst hzx
          have hyx : y = z := le_antisymm h2.1 h1.1
          subst hyx
          have hx1 : lexLt ys xs = false := by
            rcases h1.2 with h' | h'
            · exact absurd rfl h'
            · exact h'
          have hx2 : lexLt zs ys = false := by
            rcases h2.2 with h' | h'
            · exact absurd rfl h'
            · exact h'
          exact Or.inr (ih ys zs hx1 hx2)
        · exact Or.inl hzx

/-- Candidate order used for sortedness: the earlier element's key is not
greater. -/
def keyLe (a b : Candidate) : Prop := lexLt (candKey b) (candKey a) = false

theorem mem_insertByKey {z x : Candidate} :
    ∀ {l : List Candidate}, z ∈ insertByKey x l → z = x ∨ z ∈ l := by
  intro l
  induction l with
  | nil => intro h; simp [insertByKey] at h; exact Or.inl h
  | cons y ys ih =>
    intro h
    simp only [insertByKey] at h
    by_cases hc : lexLt (candKey x) (candKey y) = true
    · rw [if_pos hc] at h
      rcases List.mem_cons.mp h with h | h
      · exact Or.inl h
      · exact Or.inr h
    · rw [if_neg hc] at h
      rcases List.mem_cons.mp h with h | h
      · exact Or.inr (h ▸ List.mem_cons_self y ys)
      · rcases ih h with h | h
        · exact Or.inl h
        · exact Or.inr (List.mem_cons_of_mem y h)

theorem pairwise_insertByKey (x : Candidate) :
    ∀ l : List Candidate, l.Pairwise keyLe → (insertByKey x l).Pairwise keyLe := by
  intro l
  induction l with
  | nil => intro _; simp [insertByKey, List.pairwise_singleton]
  | cons y ys ih =>
    intro h
    rcases List.pairwise_cons.mp h with ⟨hy, hys⟩
    simp only [insertByKey]
    by_cases hc : lexLt (candKey x) (candKey y) = true
    · rw [if_pos hc]
      refine List.pairwise_cons.mpr ⟨?_, h⟩
      intro z hz
      rcases List.mem_cons.mp hz with hz | hz
      · exact hz ▸ lexLt_asymm _ _ hc
      · exact lexLt_notLt_trans _ _ _ (lexLt_asymm _ _ hc) (hy z hz)
    · rw [if_neg hc]
      refine List.pairwise_cons.mpr ⟨?_, ih hys⟩
      intro z hz
      rcases mem_insertByKey hz with hz | hz
      · exact hz ▸ Bool.eq_false_iff.mpr hc
      · exact hy z hz

theorem sortByKey_pairwise (l : List Candidate) : (sortByKey l).Pairwise keyLe := by
  suffices h : ∀ acc, acc.Pairwise keyLe →
      (l.foldl (fun acc x => insertByKey x acc) acc).Pairwise keyLe by
    exact h [] List.Pairwise.nil
  induction l with
  | nil => intro acc hacc; exact hacc
  | cons c cs ih => intro acc hacc; exact ih _ (pairwise_insertByKey c acc hacc)

/-! ### Theorem for claim C7 -/

/-- The pairwise relation the validator guarantees between adjacent output
headings. -/
def validStep (a b : Candidate) : Prop :=
  isLargeGap a.1 b.1 = false ∧ isValidSectionTransition a.1 b.1 = some true

theorem ppGo_chain :
    ∀ (cs : List Candidate) (last : Candidate) (out : List Candidate),
      ppGo last cs = .ok out → List.Chain' validStep (last :: out) := by
  intro cs
  induction cs with
  | nil =>
    intro last out h
    simp only [ppGo, Except.ok.injEq] at h
    subst h
    simp
  | cons c cs ih =>
    intro last out h
    simp only [ppGo] at h
    by_cases hgap : isLargeGap last.1 c.1 = true
    · rw [if_pos hgap] at h
      exact ih last out h
    · rw [if_neg hgap] at h
      cases htr : isValidSectionTransition last.1 c.1 with
      | none => rw [htr] at h; exact absurd h (by simp)
      | some b =>
        rw [htr] at h
        cases b with
        | false => exact ih last out h
        | true =>
          cases hinner : ppGo c cs with
          | error e => rw [hinner] at h; exact absurd h (by simp [Except.map])
          | ok out' =>
            rw [hinner] at h
            simp only [Except.map, Except.ok.injEq] at h
            subst h
            have hchain := ih c out' hinner
            exact List.chain'_cons.mpr
              ⟨⟨Bool.eq_false_iff.mpr hgap, htr⟩, hchain⟩

/-- C7.  The validator is a left fold over the candidates sorted by numeral:
the head of a successful output is the first sorted candidate; a candidate
is accepted after the head exactly when the large-gap check and the
transition check both pass against the last accepted candidate (a rejected
candidate leaves the "last accepted" reference unchanged); consequently
every adjacent pair of the output passes both checks. -/
theorem post_process_fold_invariant :
    (∀ (cands out : List Candidate), postProcessSections cands = .ok out →
      out.head? = (sortByKey cands).head? ∧
      List.Chain' validStep out) ∧
    (∀ (last c : Candidate) (cs : List Candidate),
      (validStep last c → ppGo last (c :: cs) = (ppGo c cs).map (c :: ·)) ∧
      ((isLargeGap last.1 c.1 = true ∨ isValidSectionTransition last.1 c.1 = some false) →
        ppGo last (c :: cs) = ppGo last cs)) := by
  constructor
  · intro cands out h
    unfold postProcessSections at h
    cases hs : sortByKey cands with
    | nil =>
      rw [hs] at h
      simp only [ppStart, Except.ok.injEq] at h
      subst h
      simp
    | cons c cs =>
      rw [hs] at h
      simp only [ppStart] at h
      cases hinner : ppGo c cs with
      | error e => rw [hinner] at h; exact absurd h (by simp [Except.map])
      | ok out' =>
        rw [hinner] at h
        simp only [Except.map, Except.ok.injEq] at h
        subst h
        exact ⟨rfl, ppGo_chain cs c out' hinner⟩
  · intro last c cs
    constructor
    · rintro ⟨hgap, htr⟩
      simp only [ppGo, hgap, htr]
      simp
    · rintro (hgap | htr)
      · simp only [ppGo, hgap]
        simp
      · simp only [ppGo, htr]
        by_cases hgap : isLargeGap last.1 c.1 = true
        · simp [hgap]
        · simp [hgap]

/-- Witness for C7: a concrete run of the validator; `1 -> 2` passes both
checks, so both candidates survive and the invariant holds for the output. -/
theorem post_process_fold_invariant_witness :
    ([("1", "Introduction", 0, 3), ("2", "Background", 10, 13)] :
        List Candidate).head? =
      (sortByKey [("1", "Introduction", 0, 3), ("2", "Background", 10, 13)]).head? ∧
    List.Chain' validStep [("1", "Introduction", 0, 3), ("2", "Background", 10, 13)] :=
  post_process_fold_invariant.1
    [("1", "Introduction", 0, 3), ("2", "Background", 10, 13)]
    [("1", "Introduction", 0, 3), ("2", "Background", 10, 13)] (by rfl)

/-! ### Theorem for claim C10 -/

theorem transitionWalk_isSome {lp cp : List Nat} (h : lexLt cp lp = false) :
    (transitionWalk lp cp).isSome = true := by
  induction lp generalizing cp with
  | nil => cases cp <;> simp [transitionWalk]
  | cons l ls ih =>
    cases cp with
    | nil => simp [lexLt] at h
    | cons c cs =>
      simp only [lexLt, Bool.or_eq_false_iff, Bool.and_eq_false_iff,
        decide_eq_false_iff_not, Nat.not_lt] at h
      simp only [transitionWalk]
      by_cases hlt : c < l
      · simp [hlt]
      · by_cases hgt : l < c
        · simp [hlt, hgt]
        · have heq : c = l := le_antisymm (Nat.not_lt.mp hgt) (Nat.not_lt.mp hlt)
          subst heq
          rcases h.2 with h' | h'
          · exact absurd rfl h'
          · simp only [Nat.lt_irrefl, if_false]
            exact ih h'

theorem validTransitionParts_isSome {lp cp : List Nat} (h : lexLt cp lp = false) :
    (isValidTransitionParts lp cp).isSome = true := by
  unfold isValidTransitionParts
  by_cases hlen : cp.length > lp.length + 1
  · simp [hlen]
  · rw [if_neg hlen]
    exact transitionWalk_isSome h

theorem ppGo_ok :
    ∀ (cs : List Candidate) (last : Candidate),
      (∀ c ∈ cs, keyLe last c) → cs.Pairwise keyLe →
      ∃ out, ppGo last cs = .ok out := by
  intro cs
  induction cs with
  | nil => intro last _ _; exact ⟨[], rfl⟩
  | cons c cs ih =>
    intro last hall hpw
    rcases List.pairwise_cons.mp hpw with ⟨hc, hcs⟩
    simp only [ppGo]
    by_cases hgap : isLargeGap last.1 c.1 = true
    · rw [if_pos hgap]
      exact ih last (fun z hz => hall z (List.mem_cons_of_mem c hz)) hcs
    · rw [if_neg hgap]
      have hsome : (isValidSectionTransition last.1 c.1).isSome = true := by
        unfold isValidSectionTransition
        exact validTransitionParts_isSome (hall c (List.mem_cons_self c cs))
      cases htr : isValidSectionTransition last.1 c.1 with
      | none => rw [htr] at hsome; simp at hsome
      | some b =>
        cases b with
        | false => exact ih last (fun z hz => hall z (List.mem_cons_of_mem c hz)) hcs
        | true =>
          rcases ih c hc hcs with ⟨out, hout⟩
          exact ⟨c :: out, by rw [hout]; rfl⟩

/-- C10.  The component walk of `is_valid_section_transition` cannot index
out of bounds when the current tuple is not lexicographically smaller than
the last tuple (the only out-of-bounds case needs the current tuple to be a
strict prefix of the last, which is smaller); since `post_process_sections`
compares each candidate against an earlier element of the sorted list, the
whole validator never raises `IndexError`, on any candidate list. -/
theorem transition_no_index_error :
    (∀ lp cp : List Nat, lexLt cp lp = false →
      (isValidTransitionParts lp cp).isSome = true) ∧
    (∀ cands : List Candidate, ∃ out, postProcessSections cands = .ok out) := by
  constructor
  · intro lp cp h
    exact validTransitionParts_isSome h
  · intro cands
    unfold postProcessSections
    cases hs : sortByKey cands with
    | nil => exact ⟨[], rfl⟩
    | cons c cs =>
      have hpw := sortByKey_pairwise cands
      rw [hs] at hpw
      rcases List.pairwise_cons.mp hpw with ⟨hc, hcs⟩
      rcases ppGo_ok cs c hc hcs with ⟨out, hout⟩
      exact ⟨c :: out, by simp only [ppStart]; rw [hout]; rfl⟩

/-- Witness for C10: the walk is total at the in-order pair `1 -> 1.1`, and
the validator returns normally on a concrete candidate list (including one
unsorted input). -/
theorem transition_no_index_error_witness :
    (isValidTransitionParts [1] [1, 1]).isSome = true ∧
    ∃ out, postProcessSections
      [("2", "Background", 10, 13), ("1", "Introduction", 0, 3)] = .ok out :=
  ⟨transition_no_index_error.1 [1] [1, 1] (by decide),
    transition_no_index_error.2 [("2", "Background", 10, 13), ("1", "Introduction", 0, 3)]⟩

/-! ## The heading scanner of `NeurIPSParser.extract_sections`

`re.finditer(r'\n(\d+(\.\d+)*)\s*([A-Za-z][^\n.]*)?(\n[^\n\d]+)?', text)`
is embedded as a direct matcher.  Because everything after `\s*` in the
pattern is optional, the regex engine never backtracks: each greedy piece
takes its maximal run and the optional groups match exactly when their
first character is available at the position reached. -/

/-- Greedy `(\.\d+)*`: consumed characters and the rest (fuel is the input
length; each iteration consumes at least two characters). -/
def repeatDotDigits : Nat → List Char → List Char × List Char
  | 0, cs => ([], cs)
  | fuel + 1, cs =>
    match cs with
    | '.' :: rest =>
      let ds := rest.takeWhile Char.isDigit
      if ds.isEmpty then ([], cs)
      else
        let r := repeatDotDigits fuel (rest.dropWhile Char.isDigit)
        ('.' :: ds ++ r.1, r.2)
    | _ => ([], cs)

/-- A match of the heading pattern: `g1` is the numeral (group 1), `g3` the
title clause (group 3), `g4` the fallback line including its leading newline
(group 4), `len` the number of characters consumed. -/
structure RegexMatch where
  g1 : List Char
  g3 : Option (List Char)
  g4 : Option (List Char)
  len : Nat
deriving DecidableEq

/-- Match the heading pattern at the start of `cs`. -/
def matchPat : List Char → Option RegexMatch
  | '\n' :: r1 =>
    let ds := r1.takeWhile Char.isDigit
    if ds.isEmpty then none
    else
      let r2 := r1.dropWhile Char.isDigit
      let dd := repeatDotDigits r2.length r2
      let wsp := (dd.2).takeWhile pyWS
      let r4 := (dd.2).dropWhile pyWS
      let g3r :=
        match r4 with
        | c :: rest =>
          if c.isAlpha then
            (some (c :: rest.takeWhile (fun d => d != '\n' && d != '.')),
              rest.dropWhile (fun d => d != '\n' && d != '.'))
          else (none, r4)
        | [] => (none, r4)
      let g4r :=
        match g3r.2 with
        | '\n' :: rest =>
          let body := rest.takeWhile (fun d => d != '\n' && !d.isDigit)
          if body.isEmpty then (none, g3r.2)
          else (some ('\n' :: body), rest.dropWhile (fun d => d != '\n' && !d.isDigit))
        | _ => (none, g3r.2)
      some { g1 := ds ++ dd.1
             g3 := g3r.1
             g4 := g4r.1
             len := 1 + (ds ++ dd.1).length + wsp.length +
               (match g3r.1 with | some t => t.length | none => 0) +
               (match g4r.1 with | some t => t.length | none => 0) }
  | _ => none

/-- `re.finditer`: scan left to right, resuming after each (nonempty)
match; fuel is one more than the text length. -/
def findMatchesAux : Nat → Nat → List Char → List (Nat × RegexMatch)
  | 0, _, _ => []
  | fuel + 1, pos, cs =>
    match matchPat cs with
    | some m =>
      if m.len = 0 then []
      else (pos, m) :: findMatchesAux fuel (pos + m.len) (cs.drop m.len)
    | none =>
      match cs with
      | [] => []
      | _ :: cs' => findMatchesAux fuel (pos + 1) cs'

def findMatches (cs : List Char) : List (Nat × RegexMatch) :=
  findMatchesAux (cs.length + 1) 0 cs

/-- ASCII model of Python's `str.islower()` on the title's first
character. -/
def pyIsLower (c : Char) : Bool := 'a' ≤ c && c ≤ 'z'

/-- The filtering loop of `extract_sections` (NeurIPSParser.py:36-45):
`section_title = match.group(3) or (match.group(4).strip() if
match.group(4) else '')`, then drop titles longer than 50, shorter than 5,
or starting with a lowercase letter. -/
def filterCandidates : List (Nat × RegexMatch) → List Candidate
  | [] => []
  | (pos, m) :: rest =>
    let sectionTitle : List Char :=
      match m.g3 with
      | some t => t
      | none =>
        match m.g4 with
        | some u => stripChars u
        | none => []
    if 50 < sectionTitle.length || sectionTitle.length < 5 ||
        pyIsLower (sectionTitle.headD ' ') then
      filterCandidates rest
    else
      (⟨m.g1⟩, ⟨sectionTitle⟩, pos, pos + m.len) :: filterCandidates rest

/-! ## The content segmenter of `extract_sections` -/

/-- Python `text[start:end]` (for `0 ≤ start ≤ end ≤ len`). -/
def slice (cs : List Char) (s e : Nat) : List Char := (cs.take e).drop s

/-- `'\n'.join(section_content.split('\n', 2)[2:])`: everything after the
second newline, empty when there are fewer than two newlines.  This is the
"remove first two lines since they are the title" step. -/
def dropTwoLines (cs : List Char) : List Char :=
  match splitFirstChar '\n' cs with
  | none => []
  | some (_, r1) =>
    match splitFirstChar '\n' r1 with
    | none => []
    | some (_, r2) => r2

/-- The content loop of `extract_sections` (NeurIPSParser.py:50-61): each
section's span runs to the start of the next processed heading (or the end
of the text), is stripped, and loses its first two lines. -/
def extractContent (text : List Char) : List Candidate → List (String × String)
  | [] => []
  | (num, title, start, _) :: rest =>
    let endContent :=
      match rest with
      | (_, _, s2, _) :: _ => s2
      | [] => text.length
    let body := dropTwoLines (stripChars (slice text start endContent))
    (num ++ " " ++ title, ⟨body⟩) :: extractContent text rest

/-- Rewrite the last section's body to everything before the first
occurrence of the substring `"\nReferences"`. -/
def modifyLastPair : List (String × String) → List (String × String)
  | [] => []
  | [p] => [(p.1, ⟨beforeFirstSub "\nReferences".data p.2.data⟩)]
  | p :: ps => p :: modifyLastPair ps

/-- `extracted_sections[-1][1] =
extracted_sections[-1][1].split("\nReferences")[0]` (NeurIPSParser.py:64):
indexing `[-1]` raises `IndexError` on an empty list. -/
def truncateLastReferences :
    List (String × String) → Except PyErr (List (String × String))
  | [] => .error .indexError
  | p :: ps => .ok (modifyLastPair (p :: ps))

/-- `NeurIPSParser.extract_sections` (NeurIPSParser.py:21-66), taking the
normalized text as input (the `extract_text` call delegates to the
out-of-scope PDF backend; the claims about this function start from the
normalized text). -/
def extractSections (text : String) : Except PyErr (List (String × String)) :=
  match postProcessSections (filterCandidates (findMatches text.data)) with
  | .error e => .error e
  | .ok processed => truncateLastReferences (extractContent text.data processed)

/-! ## Theorems for claims C3, C5 and C6 -/

/-- The end-to-end scenario text of the specification. -/
def scenarioText : String :=
  "\n1 Introduction\nBody text here.\n2 Background\nMore text.\n2.1 Prior Work\nEven more.\nReferences\n[1] foo"

/-- C3, counterexample.  On the scenario text, section extraction does NOT
produce the bodies the specification claims ("Body text here.",
"More text.", "Even more."): the "remove first two lines" step consumes the
single body line of each non-final section, and the References truncation
never fires. -/
theorem scenario_counterexample :
    extractSections scenarioText ≠
      .ok [("1 Introduction", "Body text here."), ("2 Background", "More text."),
        ("2.1 Prior Work", "Even more.")] := by
  intro h
  have hact : extractSections scenarioText =
      .ok [("1 Introduction", ""), ("2 Background", ""),
        ("2.1 Prior Work", "References\n[1] foo")] := by rfl
  rw [hact] at h
  exact absurd (Except.ok.inj h) (by decide)

/-- C3, amended.  On the scenario text, extraction yields a flat list of
exactly three sections with the claimed titles `1 Introduction`,
`2 Background`, `2.1 Prior Work` (no subsection tree is built), but the
bodies are `""`, `""` and `"References\n[1] foo"`: each section span loses
its first two lines (heading line plus first body line), and the final
References block survives because the final body begins with `References`
without a preceding newline, so the substring `"\nReferences"` does not
occur. -/
theorem scenario_amended :
    extractSections scenarioText =
      .ok [("1 Introduction", ""), ("2 Background", ""),
        ("2.1 Prior Work", "References\n[1] foo")] := by rfl

/-- C5.  On inputs with no validated headings, `extract_sections` does not
return an empty list: the unconditional `extracted_sections[-1]` indexing
raises `IndexError`.  Shown on the empty text and on a heading-free prose
text. -/
theorem extract_sections_empty_raises :
    extractSections "" = .error .indexError ∧
    extractSections "Just some prose with no headings." = .error .indexError := by
  exact ⟨by rfl, by rfl⟩

/-- C6, counterexample.  Truncation is triggered by the substring
`"\nReferences"`, not by a line exactly equal to `References`: here no line
equals `References` (the second line is `ReferencesX`), yet the final body
is truncated to `"a"`. -/
theorem references_truncation_counterexample :
    truncateLastReferences [("1 Title", "a\nReferencesX\nb")] = .ok [("1 Title", "a")] ∧
    (splitLines "a\nReferencesX\nb").all (fun l => decide (l ≠ "References".data)) = true := by
  exact ⟨by rfl, by decide⟩

theorem modifyLastPair_cons (p : String × String) {xs : List (String × String)}
    (h : xs ≠ []) : modifyLastPair (p :: xs) = p :: modifyLastPair xs := by
  cases xs with
  | nil => exact absurd rfl h
  | cons y ys => rfl

/-- C6, amended.  For every nonempty extracted-section list, only the final
body changes, and it becomes everything before the first occurrence of the
substring `"\nReferences"` (the whole body when that substring is absent).
The match is case-sensitive, but a line merely beginning with `References`
does trigger truncation at its leading newline; untouched earlier sections
are returned verbatim. -/
theorem references_truncation_amended :
    ∀ (l : List (String × String)) (t b : String),
      truncateLastReferences (l ++ [(t, b)]) =
        .ok (l ++ [(t, ⟨beforeFirstSub "\nReferences".data b.data⟩)]) := by
  intro l t b
  have hmod : ∀ l' : List (String × String),
      modifyLastPair (l' ++ [(t, b)]) =
        l' ++ [(t, ⟨beforeFirstSub "\nReferences".data b.data⟩)] := by
    intro l'
    induction l' with
    | nil => rfl
    | cons p ps ih =>
      rw [List.cons_append, modifyLastPair_cons p (by simp), ih, List.cons_append]
  cases l with
  | nil => exact congrArg Except.ok (hmod [])
  | cons p ps =>
    rw [show truncateLastReferences ((p :: ps) ++ [(t, b)]) =
        .ok (modifyLastPair ((p :: ps) ++ [(t, b)])) from rfl, hmod (p :: ps)]

/-! ## The document model (formatters/markdown.py)

`ContentElement`, `Section` and `Document` are the tree model.  `Section`
is called `DocSection` here because `section` is a Lean keyword.  Python
dicts are association lists in insertion order; the open `metadata`
mapping's values are modelled as strings. -/

/-- `ContentElement` (formatters/markdown.py:6-38). -/
structure ContentElement where
  element_type : String
  text : Option String := none
  path : Option String := none
  description : Option String := none
  metadata : List (String × String) := []
deriving DecidableEq

/-- `Section` (formatters/markdown.py:78-97): title, content elements, and
subsections. -/
inductive DocSection where
  | mk (title : String) (content : List ContentElement) (subsections : List DocSection)

def DocSection.title : DocSection → String
  | .mk t _ _ => t

def DocSection.content : DocSection → List ContentElement
  | .mk _ c _ => c

def DocSection.subsections : DocSection → List DocSection
  | .mk _ _ subs => subs

/-- `Document` (formatters/markdown.py:202-214): a list of root sections. -/
structure Document where
  sections : List DocSection

/-! ## JSON serialization (for C2) -/

/-- A JSON value; objects keep their fields as an ordered association
list. -/
inductive Json where
  | null
  | str (s : String)
  | arr (xs : List Json)
  | obj (fields : List (String × Json))

/-- `None`-able string fields serialize to JSON null/string. -/
def optJson : Option String → Json
  | some s => .str s
  | none => .null

/-- `ContentElement.to_json` (formatters/markdown.py:40-53). -/
def ContentElement.to_json (e : ContentElement) : Json :=
  .obj [("type", .str e.element_type),
    ("text", optJson e.text),
    ("path", optJson e.path),
    ("description", optJson e.description),
    ("metadata", .obj (e.metadata.map (fun kv => (kv.1, Json.str kv.2))))]

/-- `Section.to_json` (formatters/markdown.py:117-128), on a list of
sections so a single recursion covers the subsection lists. -/
def sectionsToJson : List DocSection → List Json
  | [] => []
  | .mk t c subs :: rest =>
    .obj [("title", .str t),
      ("content", .arr (c.map ContentElement.to_json)),
      ("subsections", .arr (sectionsToJson subs))] :: sectionsToJson rest

/-- `Document.to_json` (formatters/markdown.py:225-232): a JSON list of
section objects. -/
def Document.to_json (d : Document) : List Json :=
  sectionsToJson d.sections

/-- First value for a key in a JSON object (Python dict lookup; keys are
unique in all dicts built here). -/
def lookupField (k : String) : List (String × Json) → Option Json
  | [] => none
  | kv :: rest => if kv.1 = k then some kv.2 else lookupField k rest

/-- Lenient decode of a JSON value into an optional-string field (the
Python constructor stores whatever value arrives; only null and strings
can appear in fields produced by `to_json`). -/
def jsonToOptStr : Json → Except PyErr (Option String)
  | .null => .ok none
  | .str s => .ok (some s)
  | _ => .error .typeError

/-- `ContentElement(**content_data)`: every keyword must be one of the
constructor's parameter names (`element_type`, `text`, `path`,
`description`, `metadata`) and `element_type` must be supplied, else Python
raises `TypeError`.  The dictionaries produced by
`ContentElement.to_json` use the key `"type"`, not `"element_type"`, so
this always fails on them. -/
def contentElementFromKwargs (kvs : List (String × Json)) : Except PyErr ContentElement :=
  if kvs.any (fun kv => !(kv.1 = "element_type" || kv.1 = "text" || kv.1 = "path" ||
      kv.1 = "description" || kv.1 = "metadata")) then
    .error .typeError
  else
    match lookupField "element_type" kvs with
    | none => .error .typeError
    | some (.str et) => do
      let text ← (lookupField "text" kvs).elim (.ok none) jsonToOptStr
      let path ← (lookupField "path" kvs).elim (.ok none) jsonToOptStr
      let description ← (lookupField "description" kvs).elim (.ok none) jsonToOptStr
      let metadata ←
        match lookupField "metadata" kvs with
        | none => .ok []
        | some (.obj ms) =>
          ms.mapM (fun kv =>
            match kv.2 with
            | Json.str v => .ok (kv.1, v)
            | _ => .error PyErr.typeError)
        | some _ => .error .typeError
      return ⟨et, text, path, description, metadata⟩
    | some _ => .error .typeError

/-- One iteration of `Document.from_json` (formatters/markdown.py:268-289):
build the section title, then the content elements via
`ContentElement(**content_data)`, then for each entry of
`section_data.get('subsections', [])` call `Section.from_json` — a method
that does not exist, so any nonempty subsection list raises
`AttributeError`. -/
def sectionFromJsonData : Json → Except PyErr DocSection
  | .obj fields =>
    match lookupField "title" fields with
    | none => .error .keyError
    | some (.str t) =>
      match lookupField "content" fields with
      | none => .error .keyError
      | some (.arr items) => do
        let elems ← items.mapM (fun it =>
          match it with
          | Json.obj kvs => contentElementFromKwargs kvs
          | _ => .error PyErr.typeError)
        match lookupField "subsections" fields with
        | some (.arr (_ :: _)) => .error .attributeError
        | some (.arr []) => .ok (.mk t elems [])
        | none => .ok (.mk t elems [])
        | some _ => .error .typeError
      | some _ => .error .typeError
    | some _ => .error .typeError
  | _ => .error .typeError

/-- `Document.from_json`. -/
def Document.from_json (jsonData : List Json) : Except PyErr Document :=
  (jsonData.mapM sectionFromJsonData).map (fun ss => ⟨ss⟩)

/-! ## Theorem for claim C2 -/

/-- C2.  The JSON round trip is broken for every document with any content
element or any subsection: `to_json` emits the key `"type"` while the
`ContentElement` constructor parameter is named `element_type`, so
`ContentElement(**content_data)` raises `TypeError`; and `Section.from_json`,
which `Document.from_json` calls for subsections, does not exist, so
subsections raise `AttributeError`.  Shown at a one-paragraph document and a
one-subsection document. -/
theorem json_round_trip_raises :
    Document.from_json (Document.to_json
      ⟨[.mk "Intro" [⟨"paragraph", some "Hello world", none, none, []⟩] []]⟩) =
      .error .typeError ∧
    Document.from_json (Document.to_json
      ⟨[.mk "Outer" [] [.mk "Inner" [] []]]⟩) = .error .attributeError := by
  constructor
  · have h : Document.to_json
        ⟨[.mk "Intro" [⟨"paragraph", some "Hello world", none, none, []⟩] []]⟩ =
        [.obj [("title", .str "Intro"),
          ("content", .arr [.obj [("type", .str "paragraph"),
            ("text", .str "Hello world"), ("path", .null),
            ("description", .null), ("metadata", .obj [])]]),
          ("subsections", .arr [])]] := by
      simp [Document.to_json, sectionsToJson, ContentElement.to_json, optJson]
    rw [h]
    rfl
  · have h : Document.to_json ⟨[.mk "Outer" [] [.mk "Inner" [] []]]⟩ =
        [.obj [("title", .str "Outer"),
          ("content", .arr []),
          ("subsections", .arr [.obj [("title", .str "Inner"),
            ("content", .arr []), ("subsections", .arr [])]])]] := by
      simp [Document.to_json, sectionsToJson, ContentElement.to_json, optJson]
    rw [h]
    rfl

/-! ## `Markdown.add_image` (markdown/core.py:27-44) and image rendering

The filesystem test `os.path.exists` is the out-of-scope I/O boundary and
is passed in as an oracle. -/

/-- The `Markdown` accumulator (markdown/core.py:5-14). -/
structure MarkdownAcc where
  content : String
  image_counter : Nat

/-- `Markdown.add_image`: raise `FileNotFoundError` when the path does not
exist, otherwise append the image reference.  The raised exception carries
the message; no mutation happens on the error path. -/
def addImage (pathExists : String → Bool) (st : MarkdownAcc)
    (image_path alt_text : String) : Except String MarkdownAcc :=
  if !(pathExists image_path) then .error ("Image not found: " ++ image_path)
  else .ok ⟨st.content ++ "![" ++ alt_text ++ "](" ++ image_path ++ ")", st.image_counter⟩

/-- `ContentElement.to_markdown` (formatters/markdown.py:55-66).  Falsy
(`None` or empty) required fields render as the empty string; no filesystem
access happens. -/
def ContentElement.to_markdown (e : ContentElement) : String :=
  if e.element_type = "paragraph" then
    match e.text with
    | some t => if t = "" then "" else t ++ "\n\n"
    | none => ""
  else if e.element_type = "image" then
    match e.path, e.description with
    | some p, some d => if p = "" || d = "" then "" else "![" ++ d ++ "](" ++ p ++ ")\n\n"
    | _, _ => ""
  else ""

/-! ## Theorems for claim C9 -/

/-- C9, counterexample.  `ContentElement.to_markdown` performs no existence
check at all — it is a pure function with no filesystem argument — and
renders a full image reference for an arbitrary path, so an image whose
path does not exist is rendered silently rather than surfacing an error. -/
theorem image_render_no_existence_check :
    ContentElement.to_markdown ⟨"image", none, some "missing.png", some "figure", []⟩ =
      "![figure](missing.png)\n\n" ∧
    ("![figure](missing.png)\n\n" : String) ≠ "" := by
  exact ⟨rfl, by decide⟩

/-- C9, amended.  `Markdown.add_image` raises `FileNotFoundError` exactly
when the path does not exist and appends nothing in that case (the error
carries no new state); but rendering an image `ContentElement` performs no
existence check: for truthy path and description it always emits the
Markdown reference. -/
theorem add_image_checks_existence :
    (∀ (fs : String → Bool) (st : MarkdownAcc) (p a : String),
      addImage fs st p a =
        if fs p then
          .ok ⟨st.content ++ "![" ++ a ++ "](" ++ p ++ ")", st.image_counter⟩
        else .error ("Image not found: " ++ p)) ∧
    (∀ (e : ContentElement) (p d : String), e.element_type = "image" →
      e.path = some p → e.description = some d → p ≠ "" → d ≠ "" →
      ContentElement.to_markdown e = "![" ++ d ++ "](" ++ p ++ ")\n\n") := by
  constructor
  · intro fs st p a
    unfold addImage
    cases hfs : fs p with
    | true => simp [hfs]
    | false => simp [hfs]
  · intro e p d het hp hd hpne hdne
    unfold ContentElement.to_markdown
    rw [het]
    rw [if_neg (by decide : ¬ ("image" : String) = "paragraph"), if_pos rfl, hp, hd]
    show (if (decide (p = "") || decide (d = "")) = true then ""
      else "![" ++ d ++ "](" ++ p ++ ")\n\n") = "![" ++ d ++ "](" ++ p ++ ")\n\n"
    rw [if_neg (by simp [hpne, hdne])]

/-- Witness for C9: a concrete state, a filesystem where the path is
missing, and a concrete image element. -/
theorem add_image_checks_existence_witness :
    addImage (fun _ => false) ⟨"", 0⟩ "missing.png" "figure" =
      (if (fun _ => false) "missing.png" then
        .ok ⟨("" : String) ++ "![" ++ "figure" ++ "](" ++ "missing.png" ++ ")", 0⟩
      else .error ("Image not found: " ++ "missing.png")) ∧
    ContentElement.to_markdown ⟨"image", none, some "a.png", some "photo", []⟩ =
      "![" ++ "photo" ++ "](" ++ "a.png" ++ ")\n\n" :=
  ⟨add_image_checks_existence.1 (fun _ => false) ⟨"", 0⟩ "missing.png" "figure",
    add_image_checks_existence.2 ⟨"image", none, some "a.png", some "photo", []⟩
      "a.png" "photo" rfl rfl rfl (by decide) (by decide)⟩

/-! ## Markdown rendering (for C4)

`Section.to_markdown` renders `'#' * level + ' ' + title + '\n'`, then the
content elements, then the subsections at `level + 1`.  Its
`section_number` argument is only threaded into recursive calls and never
printed, so it is omitted here.  `Document.to_markdown` joins the root
sections at level 1. -/

def hashes (n : Nat) : String := ⟨List.replicate n '#'⟩

/-- The content loop of `Section.to_markdown` (formatters/markdown.py:146-147). -/
def elemsToMd : List ContentElement → String
  | [] => ""
  | e :: es => e.to_markdown ++ elemsToMd es

/-- `Section.to_markdown` (formatters/markdown.py:130-154) over a sibling
list, so one recursion covers the subsection loop. -/
def sectionsToMd : List DocSection → Nat → String
  | [], _ => ""
  | .mk t c subs :: rest, level =>
    hashes level ++ " " ++ t ++ "\n" ++ elemsToMd c ++
      sectionsToMd subs (level + 1) ++ sectionsToMd rest level

/-- `Document.to_markdown` (formatters/markdown.py:234-241). -/
def Document.to_markdown (d : Document) : String :=
  sectionsToMd d.sections 1

/-! ## Markdown parsing (`Document.from_markdown`, formatters/markdown.py:316-380)

The Python parser mutates `Section` objects through a stack of open
sections (attaching each new section to its parent at creation time) and
appends content to `current_subsection or current_section`, which is always
the innermost open section.  The embedding passes the state explicitly:
`spine` is the stack of open sections, deepest first, and a child is
attached to its parent when it is popped (equivalently to Python's
attach-at-creation, since the tree is only read at the end). -/

theorem dropWhile_cons_of_neg {p : Char → Bool} {x : Char} (xs : List Char)
    (h : p x = false) : (x :: xs).dropWhile p = x :: xs := by
  simp [List.dropWhile_cons, h]

/-- `strip` is the identity on a list whose two dropWhile normalizations
already hold. -/
theorem stripChars_eq_self {cs : List Char} (h1 : cs.dropWhile pyWS = cs)
    (h2 : cs.reverse.dropWhile pyWS = cs.reverse) : stripChars cs = cs := by
  unfold stripChars
  rw [h1, h2, List.reverse_reverse]

/-- A nonempty list whose head and last character are not whitespace is
`strip`-invariant. -/
theorem stripChars_eq_self_of_ends {c : Char} {cs : List Char} {z : Char}
    (hhead : pyWS c = false) (hlast : pyWS z = false)
    (hform : (c :: cs).reverse = z :: ((c :: cs).reverse.tail)) :
    stripChars (c :: cs) = c :: cs := by
  refine stripChars_eq_self (dropWhile_cons_of_neg cs hhead) ?_
  rw [hform]
  exact dropWhile_cons_of_neg _ hlast

end Marovi
